import Mathlib

/-!
Verification of `wandb-addons` (keras metrics logger and ultralytics bbox
utilities) against its natural-language specification.

The Python sources `wandb_addons/keras/metrics_logger.py` and
`wandb_addons/ultralytics/bbox_utils.py` are shallowly embedded below.
Python dictionaries are modelled as association lists in insertion order
(`setItem` overwrites in place, appends fresh keys at the end, exactly the
Python `d[k] = v` semantics); Python floats are modelled as exact rationals;
fallible Python code is modelled with `Except`.
-/

/-- Association-list lookup, the model of Python `d[k]` (first binding wins;
dictionaries never hold duplicate keys, so this matches Python). -/
def alookup {α β : Type} [DecidableEq α] (k : α) : List (α × β) → Option β
  | [] => none
  | p :: ps => if p.1 = k then some p.2 else alookup k ps

/-- The model of Python `d[k] = v`: replace the first binding of `k` in
place, or append a new binding at the end. -/
def setItem {α β : Type} [DecidableEq α] (d : List (α × β)) (k : α) (v : β) :
    List (α × β) :=
  match d with
  | [] => [(k, v)]
  | p :: ps => if p.1 = k then (k, v) :: ps else p :: setItem ps k v

/-- Values stored in a logged metrics dictionary (`logs` values are
arbitrary scalars; the logger itself inserts ints and floats). -/
inductive PyVal : Type
  | int (n : ℤ)
  | float (q : ℚ)
  | str (s : String)
deriving DecidableEq

abbrev Dict : Type := List (String × PyVal)

/-- Model of the Python dict comprehension
`\x7bpre + k: v for k, v in m.items()\x7d`. -/
def reKeyed (pre : String) (m : Dict) : Dict :=
  m.foldl (fun d p => setItem d (pre ++ p.1) p.2) []

def strEpoch : String := "epoch"
def strBatch : String := "batch"
def strLearningRate : String := "learning_rate"
def strBatchStep : String := "batch_step"
def strLoss : String := "loss"
def strCat : String := "cat"
def strDog : String := "dog"
def epochPre : String := "epoch/"
def batchPre : String := "batch/"
def epochKey : String := "epoch/epoch"
def epochLrKey : String := "epoch/learning_rate"
def batchStepKey : String := "batch/batch_step"
def batchLrKey : String := "batch/learning_rate"
def epochStar : String := "epoch/*"
def batchStar : String := "batch/*"

/-! ## WandbMetricsLogger (`wandb_addons/keras/metrics_logger.py`) -/

/-- The `log_freq` constructor argument: a string (`"epoch"`, `"batch"`, or
anything else, which Python would treat like `"epoch"` since it is not an
int) or an integer. -/
inductive LogFreqArg : Type
  | str (s : String)
  | int (n : ℤ)
deriving DecidableEq

/-- The configuration the constructor stores on `self`: `log_freq` is
`some n` exactly when `logging_batch_wise` is true (the source sets
`self.log_freq = log_freq if self.logging_batch_wise else None`). -/
structure LoggerConfig : Type where
  log_freq : Option ℤ
deriving DecidableEq

/-- The mutable counters owned by the callback. -/
structure LoggerState : Type where
  global_batch : ℤ
  global_step : ℤ
deriving DecidableEq

inductive WandbError : Type
  | noRun
deriving DecidableEq

/-- What `WandbMetricsLogger.__init__` produces: the stored config, the
initial counters, and the list of `wandb.define_metric(name, step_metric)`
calls issued, in order. -/
structure InitResult : Type where
  cfg : LoggerConfig
  st : LoggerState
  metric_defs : List (String × Option String)
deriving DecidableEq

/-- Model of `WandbMetricsLogger.__init__(log_freq, initial_global_step)`.
Raises `wandb.Error` when no run is active; turns `log_freq == "batch"`
into `1`; `logging_batch_wise = isinstance(log_freq, int)`; registers one
pair of `define_metric` axes depending on the granularity. -/
def wandb_metrics_logger_init (log_freq : LogFreqArg)
    (initial_global_step : ℤ) (run_active : Bool) :
    Except WandbError InitResult :=
  if run_active = false then .error .noRun
  else
    let lf := if log_freq = .str strBatch then .int 1 else log_freq
    let logging_batch_wise := match lf with
      | .int _ => true
      | .str _ => false
    let freq : Option ℤ := match lf with
      | .int n => some n
      | .str _ => none
    let defs := if logging_batch_wise then
        [(batchStepKey, (none : Option String)), (batchStar, some batchStepKey)]
      else
        [(epochKey, (none : Option String)), (epochStar, some epochKey)]
    .ok ⟨⟨freq⟩, ⟨0, initial_global_step⟩, defs⟩

/-- The record built by `on_epoch_end(epoch, logs)` (the argument `lr` is
the result of `self._get_lr()`):
`logs = dict() if logs is None else \x7bf"epoch/\x7bk\x7d": v ...\x7d`;
`logs["epoch/epoch"] = epoch`; the learning-rate key is added only when
`_get_lr` returned a value. -/
def epochRecord (lr : Option ℚ) (epoch : ℤ) (logs : Option Dict) : Dict :=
  let d := match logs with
    | none => []
    | some m => reKeyed epochPre m
  let d := setItem d epochKey (PyVal.int epoch)
  match lr with
  | some v => setItem d epochLrKey (PyVal.float v)
  | none => d

/-- Function `on_epoch_end` calls `wandb.log` exactly once, unconditionally: the
returned list is the list of emitted records. -/
def on_epoch_end (lr : Option ℚ) (epoch : ℤ) (logs : Option Dict) :
    List Dict :=
  [epochRecord lr epoch logs]

/-- The record built inside the `on_batch_end` emission branch:
`logs = \x7bf"batch/\x7bk\x7d": v ...\x7d if logs else \x7b\x7d` (note the
truthiness test: `None` and the empty dict both give `\x7b\x7d`), then
`logs["batch/batch_step"] = self.global_batch` (the value before the
update), then the learning-rate key when resolvable. -/
def batchRecord (lr : Option ℚ) (global_batch : ℤ) (logs : Option Dict) :
    Dict :=
  let d := match logs with
    | none => []
    | some m => if m.isEmpty then [] else reKeyed batchPre m
  let d := setItem d batchStepKey (PyVal.int global_batch)
  match lr with
  | some v => setItem d batchLrKey (PyVal.float v)
  | none => d

/-- Model of `on_batch_end(batch, logs)`: always increments `global_step`; when
`logging_batch_wise and batch % log_freq == 0`, logs one record and then
adds `log_freq` to `global_batch`. Returns the new state and the list of
emitted records. -/
def on_batch_end (cfg : LoggerConfig) (st : LoggerState) (lr : Option ℚ)
    (batch : ℕ) (logs : Option Dict) : LoggerState × List Dict :=
  let st1 : LoggerState := { st with global_step := st.global_step + 1 }
  match cfg.log_freq with
  | some n =>
    if (batch : ℤ) % n = 0 then
      ({ st1 with global_batch := st1.global_batch + n },
        [batchRecord lr st1.global_batch logs])
    else (st1, [])
  | none => (st1, [])

/-! ### `_get_lr` -/

/-- The three mutually exclusive module-level backend flags (at most one of
`tf_backend_available`, `torch_backend_available`, `jax_backend_available`
is true; `other` is e.g. the numpy backend, where all three are false). -/
inductive Backend : Type
  | tensorflow
  | torch
  | jax
  | other
deriving DecidableEq

/-- The observable behaviour of the optimizer object `_get_lr` probes.
Each `Except Unit ℚ` field is the outcome of one dereferencing path
(`.error ()` means that Python expression raises). `lr_is_tensor` is the
boolean outcome of the `isinstance(.., tf.Tensor / torch.Tensor)` test in
the backend fallback. -/
structure OptimizerEnv : Type where
  is_keras_optimizer : Except Unit Bool
  keras_lr : Except Unit ℚ
  backend : Backend
  lr_is_tensor : Bool
  tensor_lr : Except Unit ℚ
  jax_lr : Except Unit ℚ

/-- Outcome of a `_get_lr` call: a float, `None` with no warning, `None`
after a `wandb.termerror` warning, or an uncaught exception. -/
inductive LrResult : Type
  | resolved (v : ℚ)
  | absent_silent
  | absent_warned
  | raised
deriving DecidableEq

/-- The `except Exception:` handler body of `_get_lr`: branch on the
backend flags; the tf/torch tensor conversions are not wrapped in any
inner `try`, so their failure propagates; the jax branch has its own
`try/except`; when no backend flag is set the handler falls through and
the function returns `None` with no warning. -/
def lr_fallback (env : OptimizerEnv) : LrResult :=
  match env.backend with
  | .tensorflow =>
    if env.lr_is_tensor then
      match env.tensor_lr with
      | .ok v => .resolved v
      | .error _ => .raised
    else .absent_warned
  | .torch =>
    if env.lr_is_tensor then
      match env.tensor_lr with
      | .ok v => .resolved v
      | .error _ => .raised
    else .absent_warned
  | .jax =>
    match env.jax_lr with
    | .ok v => .resolved v
    | .error _ => .absent_warned
  | .other => .absent_silent

/-- Model of `WandbMetricsLogger._get_lr`: the `try` block tests
`isinstance(self.model.optimizer, keras.optimizers.Optimizer)` and, when
true, converts `optimizer.learning_rate`; any exception in the block goes
to the handler (`lr_fallback`); when the isinstance test is false the
block completes and the function falls off the end, returning `None`
silently. -/
def _get_lr (env : OptimizerEnv) : LrResult :=
  match env.is_keras_optimizer with
  | .error _ => lr_fallback env
  | .ok true =>
    match env.keras_lr with
    | .ok v => .resolved v
    | .error _ => lr_fallback env
  | .ok false => .absent_silent

/-- The first attempt of `_get_lr` (the `try` block) fails with an
exception. -/
def tryFails (env : OptimizerEnv) : Prop :=
  env.is_keras_optimizer = .error () ∨
    (env.is_keras_optimizer = .ok true ∧ env.keras_lr = .error ())

/-! ## Ultralytics bbox utilities (`wandb_addons/ultralytics/bbox_utils.py`) -/

/-- Python exceptions relevant to this module. -/
inductive PyExc : Type
  | typeError
  | keyError
  | attributeError
  | indexError
  | otherExc
deriving DecidableEq

/-- An image shape `(height, width)` as unpacked by the source
(`resized_image_height, resized_image_width = resized_image_shape`). -/
abbrev Shape : Type := ℚ × ℚ

/-- A box as four coordinates; depending on the stage these are
`(x, y, w, h)` or `(x1, y1, x2, y2)`. -/
abbrev Box4 : Type := ℚ × ℚ × ℚ × ℚ

/-- The `ratio_pad` metadata `((ratio_w, ratio_h), (pad_x, pad_y))`
forwarded to `ops.scale_boxes` (which reads `ratio_pad[0][0]` and
`ratio_pad[1]`). -/
abbrev RatioPad : Type := (ℚ × ℚ) × (ℚ × ℚ)

/-- The gain used by `ops.scale_boxes` (external `ultralytics.yolo.utils.ops`
dependency, embedded at its call site): `ratio_pad[0][0]` when given, else
`min(img1_shape[0]/img0_shape[0], img1_shape[1]/img0_shape[1])`. -/
def gainOf (img1_shape img0_shape : Shape) (rp : Option RatioPad) : ℚ :=
  match rp with
  | none => min (img1_shape.1 / img0_shape.1) (img1_shape.2 / img0_shape.2)
  | some r => r.1.1

/-- The padding used by `ops.scale_boxes`: `ratio_pad[1]` when given, else
the centred letterbox padding computed from the gain. -/
def padOf (img1_shape img0_shape : Shape) (rp : Option RatioPad) : ℚ × ℚ :=
  match rp with
  | none =>
    ((img1_shape.2 - img0_shape.2 * gainOf img1_shape img0_shape none) / 2,
     (img1_shape.1 - img0_shape.1 * gainOf img1_shape img0_shape none) / 2)
  | some r => r.2

/-- Model of `ops.clip_boxes(boxes, shape)`: clamp `x1, x2` into `[0, shape[1]]` and
`y1, y2` into `[0, shape[0]]`. -/
def clip_boxes (b : Box4) (shape : Shape) : Box4 :=
  (min (max b.1 0) shape.2, min (max b.2.1 0) shape.1,
   min (max b.2.2.1 0) shape.2, min (max b.2.2.2 0) shape.1)

/-- Model of `ops.scale_boxes(img1_shape, boxes, img0_shape, ratio_pad)`: subtract
the padding, divide by the gain, clip to the original image bounds. -/
def scale_boxes (img1_shape : Shape) (b : Box4) (img0_shape : Shape)
    (rp : Option RatioPad) : Box4 :=
  let gain := gainOf img1_shape img0_shape rp
  let pad := padOf img1_shape img0_shape rp
  clip_boxes ((b.1 - pad.1) / gain, (b.2.1 - pad.2) / gain,
    (b.2.2.1 - pad.1) / gain, (b.2.2.2 - pad.2) / gain) img0_shape

/-- Model of `ops.xywhn2xyxy(box, w, h, padw=0, padh=0)`: normalized centre/size to
absolute corners. -/
def xywhn2xyxy (b : Box4) (w h padw padh : ℚ) : Box4 :=
  (w * (b.1 - b.2.2.1 / 2) + padw, h * (b.2.1 - b.2.2.2 / 2) + padh,
   w * (b.1 + b.2.2.1 / 2) + padw, h * (b.2.1 + b.2.2.2 / 2) + padh)

/-- Model of `ops.xyxy2xywh`: corners to centre/size. -/
def xyxy2xywh (b : Box4) : Box4 :=
  ((b.1 + b.2.2.1) / 2, (b.2.1 + b.2.2.2) / 2,
   b.2.2.1 - b.1, b.2.2.2 - b.2.1)

/-- Model of `scale_bounding_box_to_original_image_shape(box, resized_image_shape,
original_image_shape, ratio_pad)`: the three-step pipeline
`xywhn2xyxy` / `scale_boxes` / `xyxy2xywh`, then `box.tolist()` (which
converts to plain Python floats, modelled as the identity on the four
rationals). No truncation to integers happens in this function. -/
def scale_bounding_box_to_original_image_shape (box : Box4)
    (resized_image_shape original_image_shape : Shape)
    (ratio_pad : Option RatioPad) : Box4 :=
  xyxy2xywh (scale_boxes resized_image_shape
    (xywhn2xyxy box resized_image_shape.2 resized_image_shape.1 0 0)
    original_image_shape ratio_pad)

/-- A rational is an integer value. -/
def isIntegral (q : ℚ) : Prop := ∃ z : ℤ, q = (z : ℚ)

/-- All four box components are integers. -/
def boxIsIntegral (b : Box4) : Prop :=
  isIntegral b.1 ∧ isIntegral b.2.1 ∧ isIntegral b.2.2.1 ∧ isIntegral b.2.2.2

/-- Python `int()` on a float: truncation toward zero. -/
def pyInt (q : ℚ) : ℤ := if 0 ≤ q then ⌊q⌋ else ⌈q⌉

/-! ### `get_ground_truth_annotations` -/

/-- A ground-truth class label: either the raw numeric label from
`batch["cls"]` (used when `class_name_map` is falsy) or the mapped string
name. -/
inductive GtLabel : Type
  | raw (c : ℤ)
  | name (s : String)
deriving DecidableEq

/-- One entry of the returned annotation data: note the `int(...)` casts on
all four coordinates happen here, in this caller, not in the scaling
function. -/
structure AnnRecord : Type where
  middle : ℤ × ℤ
  width : ℤ
  height : ℤ
  class_id : ℤ
  box_caption : GtLabel
deriving DecidableEq

/-- The validation `batch` mapping: `batch_idx`, `bboxes` and `cls` are
aligned per-box lists; `ori_shape`, `resized_shape` and `ratio_pad` are
per-image lists. -/
structure GtBatch : Type where
  batch_idx : List ℕ
  bboxes : List Box4
  cls : List ℤ
  ori_shape : List Shape
  resized_shape : List Shape
  ratio_pad : List RatioPad

/-- The boolean-mask selection `xs[batch["batch_idx"] == img_idx]`. -/
def selectByIdx {α : Type} (idxs : List ℕ) (xs : List α) (i : ℕ) : List α :=
  ((idxs.zip xs).filter (fun p => p.1 == i)).map Prod.snd

/-- The reverse map `\x7bv: k for k, v in class_name_map.items()\x7d`
(a dict build, so a later pair with the same value overwrites). -/
def reverseMap (m : List (ℤ × String)) : List (String × ℤ) :=
  m.foldl (fun d p => setItem d p.2 p.1) []

/-- Model of `get_ground_truth_annotations(img_idx, image_path, batch,
class_name_map=None)`, modelling the Python name of that function.  The
reverse map over `class_name_map` is built *before* the zero-box check, so
`class_name_map=None` raises `AttributeError` (`None.items()`) on every
call; with a mapping supplied, a frame with zero boxes returns `None`
after a `wandb.termwarn` warning. `Except.ok none` is that warning path;
`Except.ok (some data)` is the annotation list. -/
def get_ground_truth_data (img_idx : ℕ) (batch : GtBatch)
    (class_name_map : Option (List (ℤ × String))) :
    Except PyExc (Option (List AnnRecord)) :=
  let bboxes := selectByIdx batch.batch_idx batch.bboxes img_idx
  let cls0 := selectByIdx batch.batch_idx batch.cls img_idx
  match class_name_map with
  | none => .error .attributeError
  | some cmap =>
    let rev := reverseMap cmap
    if bboxes.length = 0 then .ok none
    else do
      let labels : List GtLabel ←
        if cmap.isEmpty then Except.ok (cls0.map GtLabel.raw)
        else cls0.mapM (fun c =>
          match alookup c cmap with
          | some s => Except.ok (GtLabel.name s)
          | none => Except.error PyExc.keyError)
      let ori ← match batch.ori_shape.get? img_idx with
        | some s => Except.ok s
        | none => Except.error PyExc.indexError
      let rsz ← match batch.resized_shape.get? img_idx with
        | some s => Except.ok s
        | none => Except.error PyExc.indexError
      let rp ← match batch.ratio_pad.get? img_idx with
        | some s => Except.ok s
        | none => Except.error PyExc.indexError
      let data ← (bboxes.zip labels).mapM (fun p =>
        let b := scale_bounding_box_to_original_image_shape p.1 rsz ori
          (some rp)
        match (match p.2 with
          | GtLabel.name s => alookup s rev
          | GtLabel.raw _ => none) with
        | some cid => Except.ok
            (⟨(pyInt b.1, pyInt b.2.1), pyInt b.2.2.1, pyInt b.2.2.2, cid,
              p.2⟩ : AnnRecord)
        | none => Except.error PyExc.keyError)
      Except.ok (some data)

/-! ### `get_mean_confidence_map` -/

/-- Model of `confidence_map = \x7bv: [] for _, v in class_id_to_label.items()\x7d`:
a dict build keyed by the label values. -/
def initConfLists (m : List (ℤ × String)) : List (String × List ℚ) :=
  m.foldl (fun d p => setItem d p.2 ([] : List ℚ)) []

/-- Model of `confidence_map[label].append(v)`. -/
def appendConf (cm : List (String × List ℚ)) (l : String) (v : ℚ) :
    List (String × List ℚ) :=
  cm.map (fun q => if q.1 = l then (q.1, q.2 ++ [v]) else q)

/-- The loop `for class_idx, confidence_value in zip(classes, confidence)`:
`class_id_to_label[class_idx]` raises `KeyError` for an unknown id. -/
def fillConf (m : List (ℤ × String)) :
    List (ℤ × ℚ) → List (String × List ℚ) →
    Except PyExc (List (String × List ℚ))
  | [], cm => .ok cm
  | p :: ps, cm =>
    match alookup p.1 m with
    | none => .error .keyError
    | some l => fillConf m ps (appendConf cm l p.2)

/-- Model of `get_mean_confidence_map(classes, confidence, class_id_to_label)`. -/
def get_mean_confidence_map (classes : List ℤ) (confidence : List ℚ)
    (class_id_to_label : List (ℤ × String)) :
    Except PyExc (List (String × ℚ)) :=
  match fillConf class_id_to_label (classes.zip confidence)
      (initConfLists class_id_to_label) with
  | .error e => .error e
  | .ok cm => .ok (cm.map (fun q =>
      (q.1, if 0 < q.2.length then q.2.sum / (q.2.length : ℚ) else 0)))

/-- The confidences of the detections whose class id maps to label `l`. -/
def detsFor (m : List (ℤ × String)) (l : String) (ps : List (ℤ × ℚ)) :
    List ℚ :=
  ps.filterMap (fun p => if alookup p.1 m = some l then some p.2 else none)

/-! ### `plot_validation_results` -/

/-- One frame of a validation batch, abstracted to its two failure points:
`predOutcome` is the exception (if any) raised by
`plot_predictions(predictor(image_path)[0])`, which stands *outside* the
`try`; `tryOutcome` is the outcome of the `try` block body
(ground-truth annotation building, `wandb.Image`, `table.add_data`). -/
structure Frame : Type where
  predOutcome : Option PyExc
  tryOutcome : Except PyExc Unit

/-- A table row marker `(data_idx, batch_idx, img_idx)`. -/
abbrev Row3 : Type := ℕ × ℕ × ℕ

def isOkFrame (f : Frame) : Bool :=
  match f.tryOutcome with
  | .ok _ => true
  | .error _ => false

/-- The inner `for img_idx, image_path in enumerate(batch["im_file"])`
loop: a prediction-stage exception propagates; in the `try` block only
`TypeError` is caught (`except TypeError: pass`), skipping the frame;
a successful frame appends one row and increments `data_idx`. -/
def processBatchFrames (bi : ℕ) (frames : List Frame) (ii data_idx : ℕ)
    (acc : List Row3) : Except PyExc (ℕ × List Row3) :=
  match frames with
  | [] => .ok (data_idx, acc)
  | f :: rest =>
    match f.predOutcome with
    | some e => .error e
    | none =>
      match f.tryOutcome with
      | .ok _ => processBatchFrames bi rest (ii + 1) (data_idx + 1)
          (acc ++ [(data_idx, bi, ii)])
      | .error e =>
        if e = .typeError then processBatchFrames bi rest (ii + 1) data_idx acc
        else .error e

def rowCount : Except PyExc (ℕ × List Row3) → ℕ
  | .ok pr => pr.2.length
  | .error _ => 0

def exIsOk {ε α : Type} : Except ε α → Bool
  | .ok _ => true
  | .error _ => false

def exGetD {ε α : Type} (d : α) : Except ε α → α
  | .ok a => a
  | .error _ => d

/-- The outer `for batch_idx, batch in enumerate(dataloader)` loop with the
unconditional `if batch_idx + 1 == 1: break` at the end of its body. -/
def pvrGo (batches : List (List Frame)) (bi data_idx : ℕ)
    (acc : List Row3) : Except PyExc (List Row3) :=
  match batches with
  | [] => .ok acc
  | b :: rest =>
    match processBatchFrames bi b 0 data_idx acc with
    | .error e => .error e
    | .ok pr => if bi + 1 = 1 then .ok pr.2 else pvrGo rest (bi + 1) pr.1 pr.2

/-- Model of `plot_validation_results(dataloader, ...)`: returns the table rows
added, or the first propagating exception. -/
def plot_validation_results (dataloader : List (List Frame)) :
    Except PyExc (List Row3) :=
  pvrGo dataloader 0 0 []

/-! ## Helper lemmas -/

theorem alookup_setItem {α β : Type} [DecidableEq α] (d : List (α × β))
    (k : α) (v : β) (a : α) :
    alookup a (setItem d k v) = if a = k then some v else alookup a d := by
  induction d with
  | nil =>
    by_cases h : a = k
    · subst h; simp [setItem, alookup]
    · have h2 : ¬k = a := fun h1 => h h1.symm
      simp [setItem, alookup, h, h2]
  | cons p ps ih =>
    by_cases hp : p.1 = k
    · by_cases h : a = k
      · subst h; simp [setItem, alookup, hp]
      · have h2 : ¬k = a := fun h1 => h h1.symm
        have h3 : ¬p.1 = a := by rw [hp]; exact h2
        simp [setItem, alookup, hp, h, h2, h3]
    · by_cases h : a = k
      · subst h
        simp [setItem, alookup, hp, ih]
      · by_cases hpa : p.1 = a
        · simp [setItem, alookup, hp, hpa, h]
        · simp [setItem, alookup, hp, hpa, h, ih]

theorem mem_keys_setItem {α β : Type} [DecidableEq α] (d : List (α × β))
    (k : α) (v : β) (a : α) :
    a ∈ (setItem d k v).map Prod.fst ↔ a = k ∨ a ∈ d.map Prod.fst := by
  induction d with
  | nil => simp [setItem]
  | cons p ps ih =>
    by_cases hp : p.1 = k
    · subst hp
      simp only [setItem]
      rw [if_pos trivial]
      simp only [List.map_cons, List.mem_cons]
      tauto
    · simp only [setItem, if_neg hp, List.map_cons, List.mem_cons, ih]
      tauto

theorem setItem_of_not_mem {α β : Type} [DecidableEq α] (d : List (α × β))
    (k : α) (v : β) (h : k ∉ d.map Prod.fst) :
    setItem d k v = d ++ [(k, v)] := by
  induction d with
  | nil => simp [setItem]
  | cons p ps ih =>
    simp only [List.map_cons, List.mem_cons, not_or] at h
    have h1 : ¬p.1 = k := fun he => h.1 he.symm
    simp [setItem, h1, ih h.2]

theorem str_append_cancel (p s t : String) (h : p ++ s = p ++ t) : s = t := by
  have hd := congrArg String.data h
  simp only [String.data_append] at hd
  exact String.ext (List.append_cancel_left hd)

theorem alookup_eq_none_iff {α β : Type} [DecidableEq α]
    (d : List (α × β)) (a : α) :
    alookup a d = none ↔ a ∉ d.map Prod.fst := by
  induction d with
  | nil => simp [alookup]
  | cons p ps ih =>
    by_cases hp : p.1 = a
    · simp [alookup, hp]
    · have hpa : ¬a = p.1 := fun he => hp he.symm
      simp [alookup, hp, hpa, ih]

theorem alookup_of_mem_nodup {α β : Type} [DecidableEq α]
    (m : List (α × β)) (k : α) (v : β) (hnd : (m.map Prod.fst).Nodup)
    (hmem : (k, v) ∈ m) : alookup k m = some v := by
  induction m with
  | nil => simp at hmem
  | cons p ps ih =>
    simp only [List.map_cons, List.nodup_cons] at hnd
    rcases List.mem_cons.mp hmem with h | h
    · simp [alookup, h.symm]
    · have hk : p.1 ≠ k := by
        intro he
        exact hnd.1 (he ▸ (List.mem_map.mpr ⟨(k, v), h, rfl⟩))
      simp [alookup, hk, ih hnd.2 h]

theorem reKeyed_aux (pre : String) (m : Dict) :
    ∀ acc : Dict, (m.map Prod.fst).Nodup →
    (∀ p ∈ m, (pre ++ p.1) ∉ acc.map Prod.fst) →
    m.foldl (fun d p => setItem d (pre ++ p.1) p.2) acc =
      acc ++ m.map (fun p => (pre ++ p.1, p.2)) := by
  induction m with
  | nil => intro acc _ _; simp
  | cons p ps ih =>
    intro acc hnd hdisj
    simp only [List.map_cons, List.nodup_cons] at hnd
    have h1 : setItem acc (pre ++ p.1) p.2 = acc ++ [(pre ++ p.1, p.2)] :=
      setItem_of_not_mem _ _ _ (hdisj p (List.mem_cons_self _ _))
    simp only [List.foldl_cons, h1]
    rw [ih (acc ++ [(pre ++ p.1, p.2)]) hnd.2]
    · simp
    · intro q hq
      simp only [List.map_append, List.mem_append, not_or]
      refine ⟨hdisj q (List.mem_cons_of_mem _ hq), ?_⟩
      simp only [List.map_cons, List.map_nil, List.mem_singleton]
      intro he
      exact hnd.1 (str_append_cancel pre _ _ he ▸
        (List.mem_map.mpr ⟨q, hq, rfl⟩))

theorem reKeyed_eq_map (pre : String) (m : Dict)
    (hnd : (m.map Prod.fst).Nodup) :
    reKeyed pre m = m.map (fun p => (pre ++ p.1, p.2)) := by
  have := reKeyed_aux pre m [] hnd (by simp)
  simpa [reKeyed] using this

theorem alookup_map_pre (pre : String) (m : Dict) (k : String) :
    alookup (pre ++ k) (m.map (fun p => (pre ++ p.1, p.2))) = alookup k m := by
  induction m with
  | nil => simp [alookup]
  | cons p ps ih =>
    by_cases h : p.1 = k
    · simp [alookup, h]
    · have h2 : ¬(pre ++ p.1 = pre ++ k) := fun he => h (str_append_cancel _ _ _ he)
      simp [alookup, h, h2, ih]

theorem mem_keys_map_pre (pre : String) (m : Dict) (key : String) :
    key ∈ (m.map (fun p => (pre ++ p.1, p.2))).map Prod.fst ↔
      ∃ k, k ∈ m.map Prod.fst ∧ key = pre ++ k := by
  induction m with
  | nil => simp
  | cons p ps ih =>
    simp only [List.map_cons, List.mem_cons, ih]
    constructor
    · rintro (h | ⟨k, hk, rfl⟩)
      · exact ⟨p.1, Or.inl rfl, h⟩
      · exact ⟨k, Or.inr hk, rfl⟩
    · rintro ⟨k, (rfl | hk), rfl⟩
      · exact Or.inl rfl
      · exact Or.inr ⟨k, hk, rfl⟩

theorem epochKey_split : epochKey = epochPre ++ strEpoch := by decide

theorem epochLrKey_split : epochLrKey = epochPre ++ strLearningRate := by decide

theorem batchStepKey_split : batchStepKey = batchPre ++ strBatchStep := by decide

theorem batchLrKey_split : batchLrKey = batchPre ++ strLearningRate := by decide

theorem batch_base_eq (m : Dict) :
    (if m.isEmpty then ([] : Dict) else reKeyed batchPre m) =
      reKeyed batchPre m := by
  cases m <;> simp [reKeyed]

theorem batchRecord_some_none (gb : ℤ) (m : Dict) :
    batchRecord none gb (some m) =
      setItem (reKeyed batchPre m) batchStepKey (PyVal.int gb) := by
  cases m <;> simp [batchRecord, reKeyed]

theorem batchRecord_some_some (v : ℚ) (gb : ℤ) (m : Dict) :
    batchRecord (some v) gb (some m) =
      setItem (setItem (reKeyed batchPre m) batchStepKey (PyVal.int gb))
        batchLrKey (PyVal.float v) := by
  cases m <;> simp [batchRecord, reKeyed]

/-- Claim C2: for every metrics mapping `M` (a dict, so with distinct keys)
and epoch index `e`, `on_epoch_end(e, M)` emits exactly one record; that
record maps `epoch/<k>` to `M[k]` for every key `k` of `M` (apart from the
keys the logger itself overwrites), contains `epoch/epoch = e`, contains
`epoch/learning_rate = lr` exactly when a learning rate `lr` was resolved,
and contains no key outside
`\x7bepoch/<k>\x7d ∪ \x7bepoch/epoch\x7d ∪ \x7bepoch/learning_rate\x7d`. -/
theorem on_epoch_end_c2 (lr : Option ℚ) (e : ℤ) (m : Dict)
    (hm : (m.map Prod.fst).Nodup) :
    on_epoch_end lr e (some m) = [epochRecord lr e (some m)]
    ∧ alookup epochKey (epochRecord lr e (some m)) = some (PyVal.int e)
    ∧ (∀ v, lr = some v →
        alookup epochLrKey (epochRecord lr e (some m)) = some (PyVal.float v))
    ∧ (∀ k v, (k, v) ∈ m → k ≠ strEpoch → (lr = none ∨ k ≠ strLearningRate) →
        alookup (epochPre ++ k) (epochRecord lr e (some m)) = some v)
    ∧ (∀ key, key ∈ (epochRecord lr e (some m)).map Prod.fst ↔
        (key = epochKey ∨ (key = epochLrKey ∧ lr.isSome = true) ∨
          ∃ k, k ∈ m.map Prod.fst ∧ key = epochPre ++ k)) := by
  have hrk := reKeyed_eq_map epochPre m hm
  have hNE : ¬(epochKey = epochLrKey) := by decide
  refine ⟨rfl, ?_, ?_, ?_, ?_⟩
  · cases lr with
    | none => simp [epochRecord, alookup_setItem]
    | some v => simp [epochRecord, alookup_setItem, hNE]
  · rintro v rfl
    simp [epochRecord, alookup_setItem]
  · intro k v hkv hke hlr
    have hmk : alookup k m = some v := alookup_of_mem_nodup m k v hm hkv
    have h1 : ¬(epochPre ++ k = epochKey) := by
      rw [epochKey_split]
      exact fun he => hke (str_append_cancel _ _ _ he)
    cases lr with
    | none =>
      simp [epochRecord, alookup_setItem, h1, hrk, alookup_map_pre, hmk]
    | some v2 =>
      have hk2 : k ≠ strLearningRate := by
        rcases hlr with h | h
        · exact absurd h (by simp)
        · exact h
      have h2 : ¬(epochPre ++ k = epochLrKey) := by
        rw [epochLrKey_split]
        exact fun he => hk2 (str_append_cancel _ _ _ he)
      simp [epochRecord, alookup_setItem, h1, h2, hrk, alookup_map_pre, hmk]
  · intro key
    cases lr with
    | none =>
      simp only [epochRecord, hrk, mem_keys_setItem, mem_keys_map_pre,
        Option.isSome_none, Bool.false_eq_true, and_false, false_or]
    | some v =>
      simp only [epochRecord, hrk, mem_keys_setItem, mem_keys_map_pre,
        Option.isSome_some, and_true]
      tauto

theorem on_epoch_end_c2_witness :
    (([(strLoss, PyVal.float (1 / 2))] : Dict).map Prod.fst).Nodup
    ∧ alookup (epochPre ++ strLoss)
        (epochRecord (some 1) 3 (some [(strLoss, PyVal.float (1 / 2))])) =
        some (PyVal.float (1 / 2)) :=
  ⟨by simp,
    (on_epoch_end_c2 (some 1) 3 [(strLoss, PyVal.float (1 / 2))]
        (by simp)).2.2.2.1 strLoss (PyVal.float (1 / 2)) (by simp)
      (by decide) (Or.inr (by decide))⟩

/-- Claim C1: `on_batch_end(b, M)` always increments `global_step` by 1; a
batch record is emitted iff logging is batch-wise (`log_freq = some N`)
and `b % N == 0`; the emitted record maps each metric key to `batch/<k>`,
contains `batch/batch_step` equal to `global_batch` before the update,
contains `batch/learning_rate` exactly when a learning rate was resolved;
after an emission `global_batch` grows by exactly `N`, and on a
non-emitting call it is unchanged. -/
theorem on_batch_end_c1 (cfg : LoggerConfig) (st : LoggerState)
    (lr : Option ℚ) (b : ℕ) (m : Dict)
    (hm : (m.map Prod.fst).Nodup)
    (hN : ∀ n, cfg.log_freq = some n → 1 ≤ n) :
    (on_batch_end cfg st lr b (some m)).1.global_step = st.global_step + 1
    ∧ ((on_batch_end cfg st lr b (some m)).2 ≠ [] ↔
        ∃ n, cfg.log_freq = some n ∧ (b : ℤ) % n = 0)
    ∧ (∀ d, (on_batch_end cfg st lr b (some m)).2 = [d] →
        alookup batchStepKey d = some (PyVal.int st.global_batch)
        ∧ (∀ v, lr = some v → alookup batchLrKey d = some (PyVal.float v))
        ∧ (lr = none → strLearningRate ∉ m.map Prod.fst →
            alookup batchLrKey d = none)
        ∧ (∀ k v, (k, v) ∈ m → k ≠ strBatchStep →
            (lr = none ∨ k ≠ strLearningRate) →
            alookup (batchPre ++ k) d = some v)
        ∧ ∃ n, cfg.log_freq = some n ∧
            (on_batch_end cfg st lr b (some m)).1.global_batch =
              st.global_batch + n)
    ∧ ((on_batch_end cfg st lr b (some m)).2 = [] →
        (on_batch_end cfg st lr b (some m)).1.global_batch =
          st.global_batch) := by
  clear hN
  have hrk := reKeyed_eq_map batchPre m hm
  have hNE : ¬(batchStepKey = batchLrKey) := by decide
  have hNE2 : ¬(batchLrKey = batchStepKey) := fun h => hNE h.symm
  obtain ⟨freq⟩ := cfg
  cases freq with
  | none =>
    have heq : on_batch_end ⟨none⟩ st lr b (some m) =
        (⟨st.global_batch, st.global_step + 1⟩, []) := rfl
    rw [heq]
    refine ⟨rfl, by simp, ?_, fun _ => rfl⟩
    intro d hd
    simp at hd
  | some n =>
    by_cases hb : (b : ℤ) % n = 0
    · have heq : on_batch_end ⟨some n⟩ st lr b (some m) =
          (⟨st.global_batch + n, st.global_step + 1⟩,
            [batchRecord lr st.global_batch (some m)]) := by
        simp only [on_batch_end]
        rw [if_pos hb]
      rw [heq]
      refine ⟨rfl, ?_, ?_, ?_⟩
      · constructor
        · intro _
          exact ⟨n, rfl, hb⟩
        · intro _
          simp
      · intro d hd
        have hd2 := (List.cons.injEq _ _ _ _).mp hd
        obtain ⟨hd3, -⟩ := hd2
        subst hd3
        refine ⟨?_, ?_, ?_, ?_, n, rfl, rfl⟩
        · cases lr with
          | none => simp [batchRecord_some_none, alookup_setItem]
          | some v => simp [batchRecord_some_some, alookup_setItem, hNE]
        · rintro v rfl
          simp [batchRecord_some_some, alookup_setItem]
        · rintro rfl hnl
          have h0 : alookup strLearningRate m = none :=
            (alookup_eq_none_iff m strLearningRate).mpr hnl
          rw [batchRecord_some_none, alookup_setItem, if_neg hNE2, hrk,
            batchLrKey_split, alookup_map_pre]
          exact h0
        · intro k v hkv hke hlr
          have hmk : alookup k m = some v := alookup_of_mem_nodup m k v hm hkv
          have h1 : ¬(batchPre ++ k = batchStepKey) := by
            rw [batchStepKey_split]
            exact fun he => hke (str_append_cancel _ _ _ he)
          cases lr with
          | none =>
            simp [batchRecord_some_none, alookup_setItem, h1, hrk,
              alookup_map_pre, hmk]
          | some v2 =>
            have hk2 : k ≠ strLearningRate := by
              rcases hlr with h | h
              · exact absurd h (by simp)
              · exact h
            have h2 : ¬(batchPre ++ k = batchLrKey) := by
              rw [batchLrKey_split]
              exact fun he => hk2 (str_append_cancel _ _ _ he)
            simp [batchRecord_some_some, alookup_setItem, h1, h2, hrk,
              alookup_map_pre, hmk]
      · intro hd
        simp at hd
    · have heq : on_batch_end ⟨some n⟩ st lr b (some m) =
          (⟨st.global_batch, st.global_step + 1⟩, []) := by
        simp only [on_batch_end]
        rw [if_neg hb]
      rw [heq]
      refine ⟨rfl, ?_, ?_, fun _ => rfl⟩
      · constructor
        · intro h
          exact absurd rfl h
        · rintro ⟨n2, hn2, hmod⟩
          have hn3 : some n = some n2 := hn2
          injection hn3 with h2
          subst h2
          exact absurd hmod hb
      · intro d hd
        simp at hd

theorem on_batch_end_c1_witness :
    (on_batch_end ⟨some 2⟩ ⟨0, 0⟩ none 4
        (some [(strLoss, PyVal.float (1 / 2))])).1.global_step = 0 + 1
    ∧ ((on_batch_end ⟨some 2⟩ ⟨0, 0⟩ none 4
        (some [(strLoss, PyVal.float (1 / 2))])).2 ≠ [] ↔
        ∃ n, (⟨some 2⟩ : LoggerConfig).log_freq = some n ∧
          ((4 : ℕ) : ℤ) % n = 0) :=
  ⟨(on_batch_end_c1 ⟨some 2⟩ ⟨0, 0⟩ none 4 [(strLoss, PyVal.float (1 / 2))]
      (by simp) (by intro n hn; injection hn with h; omega)).1,
   (on_batch_end_c1 ⟨some 2⟩ ⟨0, 0⟩ none 4 [(strLoss, PyVal.float (1 / 2))]
      (by simp) (by intro n hn; injection hn with h; omega)).2.1⟩

/-- Claim C4, counterexample: constructing the logger with the default
epoch granularity issues only the epoch-axis `define_metric` calls; the
batch-axis registration `("batch/batch_step", None)` is not among them, so
it is not true that both namespaced step axes are registered for every
construction regardless of granularity. -/
theorem wandb_init_c4_counterexample :
    wandb_metrics_logger_init (.str strEpoch) 0 true =
      .ok ⟨⟨none⟩, ⟨0, 0⟩, [(epochKey, none), (epochStar, some epochKey)]⟩
    ∧ (batchStepKey, (none : Option String)) ∉
        [(epochKey, (none : Option String)), (epochStar, some epochKey)] := by
  constructor
  · rfl
  · decide

/-- Claim C4, amended: every construction with an active run registers,
exactly once, exactly one pair of axis definitions: the
`batch/batch_step` axis for `batch/*` metrics when the granularity is
batch-wise, and otherwise the `epoch/epoch` axis for `epoch/*` metrics;
construction fails when no logging session is active; the counters start
at `global_batch = 0` and `global_step = initial_global_step`. -/
theorem wandb_init_c4_amended (lf : LogFreqArg) (s : ℤ) :
    wandb_metrics_logger_init lf s false = .error .noRun
    ∧ (∀ r, wandb_metrics_logger_init lf s true = .ok r →
        (r.metric_defs =
            [(batchStepKey, none), (batchStar, some batchStepKey)] ∨
          r.metric_defs = [(epochKey, none), (epochStar, some epochKey)])
        ∧ (r.cfg.log_freq.isSome = true ↔
            r.metric_defs =
              [(batchStepKey, none), (batchStar, some batchStepKey)])
        ∧ r.st.global_batch = 0 ∧ r.st.global_step = s) := by
  constructor
  · rfl
  · intro r hr
    have hne : ([(batchStepKey, (none : Option String)),
        (batchStar, some batchStepKey)] : List (String × Option String)) ≠
        [(epochKey, none), (epochStar, some epochKey)] := by decide
    rcases lf with ls | ln
    · by_cases hs : LogFreqArg.str ls = .str strBatch
      · rw [hs] at hr
        have hr2 : r = ⟨⟨some 1⟩, ⟨0, s⟩,
            [(batchStepKey, none), (batchStar, some batchStepKey)]⟩ := by
          have : wandb_metrics_logger_init (.str strBatch) s true =
              .ok ⟨⟨some 1⟩, ⟨0, s⟩,
                [(batchStepKey, none), (batchStar, some batchStepKey)]⟩ := by
            simp [wandb_metrics_logger_init]
          rw [this] at hr
          injection hr with h
          exact h.symm
        subst hr2
        simp
      · have : wandb_metrics_logger_init (.str ls) s true =
            .ok ⟨⟨none⟩, ⟨0, s⟩,
              [(epochKey, none), (epochStar, some epochKey)]⟩ := by
          simp [wandb_metrics_logger_init, hs]
        rw [this] at hr
        injection hr with h
        subst h
        refine ⟨Or.inr rfl, ?_, rfl, rfl⟩
        constructor
        · intro hfalse
          simp at hfalse
        · intro h
          exact absurd h.symm hne
    · have hs : LogFreqArg.int ln ≠ .str strBatch := by
        intro h
        injection h
      have : wandb_metrics_logger_init (.int ln) s true =
          .ok ⟨⟨some ln⟩, ⟨0, s⟩,
            [(batchStepKey, none), (batchStar, some batchStepKey)]⟩ := by
        simp [wandb_metrics_logger_init, hs]
      rw [this] at hr
      injection hr with h
      subst h
      simp

theorem wandb_init_c4_amended_witness :
    wandb_metrics_logger_init (.int 2) 5 false = .error .noRun
    ∧ ((⟨⟨some 2⟩, ⟨0, 5⟩, [(batchStepKey, none),
          (batchStar, some batchStepKey)]⟩ : InitResult).metric_defs =
          [(batchStepKey, none), (batchStar, some batchStepKey)] ∨
        (⟨⟨some 2⟩, ⟨0, 5⟩, [(batchStepKey, none),
          (batchStar, some batchStepKey)]⟩ : InitResult).metric_defs =
          [(epochKey, none), (epochStar, some epochKey)]) :=
  ⟨(wandb_init_c4_amended (.int 2) 5).1,
    ((wandb_init_c4_amended (.int 2) 5).2
      ⟨⟨some 2⟩, ⟨0, 5⟩, [(batchStepKey, none), (batchStar, some batchStepKey)]⟩
      (by rfl)).1⟩

/-- Claim C6, counterexample: an optimizer state on the tensorflow backend
whose first resolution path raises and whose tensor conversion in the
`except` handler also raises makes `_get_lr` itself raise (the tf/torch
fallback conversion is not wrapped in any inner `try`), so `_get_lr` does
not "never raise". -/
theorem get_lr_c6_counterexample :
    _get_lr ⟨.ok true, .error (), .tensorflow, true, .error (), .ok 0⟩ =
      .raised := rfl

/-- Claim C6, amended: `_get_lr` returns a float when the keras-optimizer
path resolves, or when that path raises and the backend fallback resolves
a tensor (tf/torch) or the jax conversion; it warns once and returns
`None` when the fallback deems the value unresolvable (non-tensor on
tf/torch, or a failing jax conversion); but it returns `None` with no
warning when the optimizer is not a keras `Optimizer` instance or when no
backend flag is set, and it raises when the tf/torch tensor conversion in
the handler itself fails. -/
theorem get_lr_c6_amended (env : OptimizerEnv) :
    (_get_lr env = .raised ↔ tryFails env ∧
      (env.backend = .tensorflow ∨ env.backend = .torch) ∧
      env.lr_is_tensor = true ∧ env.tensor_lr = .error ())
    ∧ (_get_lr env = .absent_warned ↔ tryFails env ∧
        (((env.backend = .tensorflow ∨ env.backend = .torch) ∧
            env.lr_is_tensor = false) ∨
          (env.backend = .jax ∧ env.jax_lr = .error ())))
    ∧ (_get_lr env = .absent_silent ↔
        (env.is_keras_optimizer = .ok false ∨
          (tryFails env ∧ env.backend = .other)))
    ∧ (∀ v, _get_lr env = .resolved v ↔
        ((env.is_keras_optimizer = .ok true ∧ env.keras_lr = .ok v) ∨
          (tryFails env ∧
            (((env.backend = .tensorflow ∨ env.backend = .torch) ∧
                env.lr_is_tensor = true ∧ env.tensor_lr = .ok v) ∨
              (env.backend = .jax ∧ env.jax_lr = .ok v))))) := by
  obtain ⟨iko, klr, be, tens, tlr, jlr⟩ := env
  rcases iko with ⟨⟩ | b
  · rcases klr with ⟨⟩ | q <;> cases be <;> cases tens <;>
      rcases tlr with ⟨⟩ | tq <;> rcases jlr with ⟨⟩ | jq <;>
      simp [_get_lr, lr_fallback, tryFails]
  · cases b
    · simp [_get_lr, lr_fallback, tryFails]
    · rcases klr with ⟨⟩ | q <;> cases be <;> cases tens <;>
        rcases tlr with ⟨⟩ | tq <;> rcases jlr with ⟨⟩ | jq <;>
        simp [_get_lr, lr_fallback, tryFails]

/-- Claim C3, counterexample: the box mapper returns the untruncated
rational values; at the concrete input below the returned width and height
are 1/2, which is not an integer, so the function does not "truncate all
four output values to integers before returning". -/
theorem scale_bbox_c3_counterexample :
    scale_bounding_box_to_original_image_shape (1 / 2, 1 / 2, 1 / 4, 1 / 4)
      (2, 2) (2, 2) (some ((1, 1), (0, 0))) = (1, 1, 1 / 2, 1 / 2)
    ∧ ¬boxIsIntegral (1, 1, 1 / 2, 1 / 2) := by
  constructor
  · simp only [scale_bounding_box_to_original_image_shape, xywhn2xyxy,
      scale_boxes, gainOf, padOf, clip_boxes, xyxy2xywh]
    norm_num [min_def, max_def]
  · rintro ⟨-, -, ⟨z, hz⟩, -⟩
    have h1 : (1 : ℚ) = 2 * (z : ℚ) := by
      rw [div_eq_iff (by norm_num : (2 : ℚ) ≠ 0)] at hz
      linarith
    have h2 : (1 : ℤ) = 2 * z := by exact_mod_cast h1
    omega

theorem clip_xywh_bounds (x1 y1 x2 y2 W H : ℚ) (hW : 0 ≤ W) (hH : 0 ≤ H)
    (hx : x1 ≤ x2) (hy : y1 ≤ y2) :
    (0 ≤ (xyxy2xywh (clip_boxes (x1, y1, x2, y2) (H, W))).1 ∧
      (xyxy2xywh (clip_boxes (x1, y1, x2, y2) (H, W))).1 ≤ W)
    ∧ (0 ≤ (xyxy2xywh (clip_boxes (x1, y1, x2, y2) (H, W))).2.1 ∧
      (xyxy2xywh (clip_boxes (x1, y1, x2, y2) (H, W))).2.1 ≤ H)
    ∧ (0 ≤ (xyxy2xywh (clip_boxes (x1, y1, x2, y2) (H, W))).2.2.1 ∧
      (xyxy2xywh (clip_boxes (x1, y1, x2, y2) (H, W))).2.2.1 ≤ W)
    ∧ (0 ≤ (xyxy2xywh (clip_boxes (x1, y1, x2, y2) (H, W))).2.2.2 ∧
      (xyxy2xywh (clip_boxes (x1, y1, x2, y2) (H, W))).2.2.2 ≤ H) := by
  simp only [clip_boxes, xyxy2xywh]
  have a1 : 0 ≤ min (max x1 0) W := le_min (le_max_right _ _) hW
  have a2 : 0 ≤ min (max x2 0) W := le_min (le_max_right _ _) hW
  have a3 : min (max x1 0) W ≤ W := min_le_right _ _
  have a4 : min (max x2 0) W ≤ W := min_le_right _ _
  have a5 : min (max x1 0) W ≤ min (max x2 0) W :=
    min_le_min (max_le_max hx le_rfl) le_rfl
  have b1 : 0 ≤ min (max y1 0) H := le_min (le_max_right _ _) hH
  have b2 : 0 ≤ min (max y2 0) H := le_min (le_max_right _ _) hH
  have b3 : min (max y1 0) H ≤ H := min_le_right _ _
  have b4 : min (max y2 0) H ≤ H := min_le_right _ _
  have b5 : min (max y1 0) H ≤ min (max y2 0) H :=
    min_le_min (max_le_max hy le_rfl) le_rfl
  refine ⟨⟨by linarith, by linarith⟩, ⟨by linarith, by linarith⟩,
    ⟨by linarith, by linarith⟩, ⟨by linarith, by linarith⟩⟩

/-- Claim C3, amended: for every input box with nonnegative normalized
width and height, nonnegative resized dimensions, positive gain and
nonnegative original dimensions, the box mapper returns four rational
values `(cx, cy, w, h)` in original-image pixel units — the corner
coordinates are clipped to the original image bounds, so the centre lies
within the original image and the width/height are nonnegative (possibly
zero) and at most the image extent. The function itself performs no
integer truncation; the `int(...)` casts happen in its callers. -/
theorem scale_bbox_c3_amended (box : Box4) (resized original : Shape)
    (rp : Option RatioPad)
    (hgain : 0 < gainOf resized original rp)
    (hW : 0 ≤ original.2) (hH : 0 ≤ original.1)
    (hrw : 0 ≤ resized.2) (hrh : 0 ≤ resized.1)
    (hbw : 0 ≤ box.2.2.1) (hbh : 0 ≤ box.2.2.2) :
    (0 ≤ (scale_bounding_box_to_original_image_shape box resized original
        rp).1 ∧
      (scale_bounding_box_to_original_image_shape box resized original
        rp).1 ≤ original.2)
    ∧ (0 ≤ (scale_bounding_box_to_original_image_shape box resized original
        rp).2.1 ∧
      (scale_bounding_box_to_original_image_shape box resized original
        rp).2.1 ≤ original.1)
    ∧ (0 ≤ (scale_bounding_box_to_original_image_shape box resized original
        rp).2.2.1 ∧
      (scale_bounding_box_to_original_image_shape box resized original
        rp).2.2.1 ≤ original.2)
    ∧ (0 ≤ (scale_bounding_box_to_original_image_shape box resized original
        rp).2.2.2 ∧
      (scale_bounding_box_to_original_image_shape box resized original
        rp).2.2.2 ≤ original.1) := by
  obtain ⟨bx, byy, bw, bh⟩ := box
  obtain ⟨rh, rwd⟩ := resized
  obtain ⟨oh, ow⟩ := original
  simp only at hgain hW hH hrw hrh hbw hbh
  simp only [scale_bounding_box_to_original_image_shape, xywhn2xyxy,
    scale_boxes]
  refine clip_xywh_bounds _ _ _ _ _ _ hW hH ?_ ?_
  · apply div_le_div_of_nonneg_right _ hgain.le
    have := mul_le_mul_of_nonneg_left
      (show bx - bw / 2 ≤ bx + bw / 2 by linarith) hrw
    linarith
  · apply div_le_div_of_nonneg_right _ hgain.le
    have := mul_le_mul_of_nonneg_left
      (show byy - bh / 2 ≤ byy + bh / 2 by linarith) hrh
    linarith

theorem scale_bbox_c3_amended_witness :
    0 < gainOf (2, 2) (2, 2) (some ((1, 1), (0, 0)))
    ∧ (0 ≤ (scale_bounding_box_to_original_image_shape
        (1 / 2, 1 / 2, 1 / 4, 1 / 4) (2, 2) (2, 2)
        (some ((1, 1), (0, 0)))).1 ∧
      (scale_bounding_box_to_original_image_shape
        (1 / 2, 1 / 2, 1 / 4, 1 / 4) (2, 2) (2, 2)
        (some ((1, 1), (0, 0)))).1 ≤ (2, (2 : ℚ)).2) :=
  ⟨by norm_num [gainOf],
    (scale_bbox_c3_amended (1 / 2, 1 / 2, 1 / 4, 1 / 4) (2, 2) (2, 2)
      (some ((1, 1), (0, 0))) (by norm_num [gainOf]) (by norm_num)
      (by norm_num) (by norm_num) (by norm_num) (by norm_num)
      (by norm_num)).1⟩

/-- Claim C9: calling the ground-truth annotation builder with
`class_name_map` left at its default `None` raises (`None.items()` in the
reverse-map comprehension, which stands before the zero-box check) on
every input, even when the frame has zero boxes; consequently the
non-fatal "no annotations" warning path (`.ok none`) is reachable only
when a non-`None` class-label mapping is supplied, and with a mapping
supplied a frame with zero ground-truth boxes does take it. -/
theorem gta_c9 :
    (∀ i batch, get_ground_truth_data i batch none = .error .attributeError)
    ∧ (∀ i batch cm, get_ground_truth_data i batch cm = .ok none →
        cm.isSome = true)
    ∧ (∀ i batch m,
        (selectByIdx batch.batch_idx batch.bboxes i).length = 0 →
        get_ground_truth_data i batch (some m) = .ok none) := by
  refine ⟨fun i batch => rfl, ?_, ?_⟩
  · intro i batch cm h
    cases cm with
    | none => simp [get_ground_truth_data] at h
    | some m => rfl
  · intro i batch m h
    simp [get_ground_truth_data, h]

theorem gta_c9_witness :
    (selectByIdx (⟨[], [], [], [], [], []⟩ : GtBatch).batch_idx
      (⟨[], [], [], [], [], []⟩ : GtBatch).bboxes 0).length = 0
    ∧ get_ground_truth_data 0 ⟨[], [], [], [], [], []⟩
        (some [(0, strCat)]) = .ok none :=
  ⟨rfl, gta_c9.2.2 0 ⟨[], [], [], [], [], []⟩ [(0, strCat)] rfl⟩

theorem alookup_initConfLists_aux (m : List (ℤ × String)) (a : String) :
    ∀ acc : List (String × List ℚ),
    alookup a (m.foldl (fun d p => setItem d p.2 ([] : List ℚ)) acc) =
      if a ∈ m.map Prod.snd then some [] else alookup a acc := by
  induction m with
  | nil => intro acc; simp
  | cons p ps ih =>
    intro acc
    rw [List.foldl_cons, ih]
    by_cases h1 : a ∈ ps.map Prod.snd
    · simp [h1]
    · by_cases h2 : a = p.2
      · simp [h1, h2, alookup_setItem]
      · simp [h1, h2, alookup_setItem]

theorem alookup_initConfLists (m : List (ℤ × String)) (a : String) :
    alookup a (initConfLists m) =
      if a ∈ m.map Prod.snd then some [] else none := by
  rw [initConfLists, alookup_initConfLists_aux]
  simp [alookup]

theorem mem_keys_initConfLists_aux (m : List (ℤ × String)) (a : String) :
    ∀ acc : List (String × List ℚ),
    (a ∈ (m.foldl (fun d p => setItem d p.2 ([] : List ℚ)) acc).map
        Prod.fst) ↔
      a ∈ acc.map Prod.fst ∨ a ∈ m.map Prod.snd := by
  induction m with
  | nil => intro acc; simp
  | cons p ps ih =>
    intro acc
    rw [List.foldl_cons, ih, mem_keys_setItem]
    simp only [List.map_cons, List.mem_cons]
    tauto

theorem mem_keys_initConfLists (m : List (ℤ × String)) (a : String) :
    a ∈ (initConfLists m).map Prod.fst ↔ a ∈ m.map Prod.snd := by
  rw [initConfLists, mem_keys_initConfLists_aux]
  simp

theorem fillConf_spec (m : List (ℤ × String)) :
    ∀ (ps : List (ℤ × ℚ)) (cm : List (String × List ℚ)),
    (∀ p ∈ ps, (alookup p.1 m).isSome = true) →
    fillConf m ps cm =
      .ok (cm.map (fun q => (q.1, q.2 ++ detsFor m q.1 ps))) := by
  intro ps
  induction ps with
  | nil =>
    intro cm _
    simp [fillConf, detsFor]
  | cons p ps ih =>
    intro cm h
    have hp := h p (List.mem_cons_self _ _)
    obtain ⟨l, hl⟩ : ∃ l, alookup p.1 m = some l := by
      cases hh : alookup p.1 m with
      | none => rw [hh] at hp; simp at hp
      | some l => exact ⟨l, rfl⟩
    simp only [fillConf, hl]
    rw [ih (appendConf cm l p.2) (fun q hq => h q (List.mem_cons_of_mem _ hq))]
    congr 1
    rw [appendConf, List.map_map]
    apply List.map_congr_left
    intro q hq
    simp only [Function.comp_apply]
    by_cases hql : q.1 = l
    · simp [hql, detsFor, hl]
    · have hlq : ¬l = q.1 := fun he => hql he.symm
      simp [hql, detsFor, hl, hlq]

theorem keys_dets_map (ini : List (String × List ℚ)) (m : List (ℤ × String))
    (ps : List (ℤ × ℚ)) :
    (ini.map (fun q => (q.1, q.2 ++ detsFor m q.1 ps))).map Prod.fst =
      ini.map Prod.fst := by
  induction ini <;> simp [*]

theorem keys_mean_map (cm : List (String × List ℚ)) :
    (cm.map (fun q =>
        (q.1, if 0 < q.2.length then q.2.sum / (q.2.length : ℚ)
          else 0))).map Prod.fst = cm.map Prod.fst := by
  induction cm <;> simp [*]

theorem alookup_dets_map (ini : List (String × List ℚ))
    (m : List (ℤ × String)) (ps : List (ℤ × ℚ)) (a : String) :
    alookup a (ini.map (fun q => (q.1, q.2 ++ detsFor m q.1 ps))) =
      Option.map (fun xs => xs ++ detsFor m a ps) (alookup a ini) := by
  induction ini with
  | nil => simp [alookup]
  | cons q qs ih =>
    by_cases h : q.1 = a
    · subst h; simp [alookup]
    · simp [alookup, h, ih]

theorem alookup_mean_map (cm : List (String × List ℚ)) (a : String) :
    alookup a (cm.map (fun q =>
        (q.1, if 0 < q.2.length then q.2.sum / (q.2.length : ℚ) else 0))) =
      Option.map (fun xs : List ℚ =>
        if 0 < xs.length then xs.sum / (xs.length : ℚ) else 0)
        (alookup a cm) := by
  induction cm with
  | nil => simp [alookup]
  | cons q qs ih =>
    by_cases h : q.1 = a
    · subst h; simp [alookup]
    · simp [alookup, h, ih]

/-- Claim C5: when every detection class id is a key of
`class_id_to_label`, the aggregator succeeds; the key set of the returned
map is exactly the set of labels in the value set of `class_id_to_label`; a
label with at least one detection maps to the arithmetic mean of its
confidences, and a label with zero detections maps to exactly 0. -/
theorem get_mean_confidence_map_c5 (classes : List ℤ) (confidence : List ℚ)
    (m : List (ℤ × String))
    (hall : ∀ p ∈ classes.zip confidence, (alookup p.1 m).isSome = true) :
    exIsOk (get_mean_confidence_map classes confidence m) = true
    ∧ (∀ l, l ∈ (exGetD []
        (get_mean_confidence_map classes confidence m)).map Prod.fst ↔
        l ∈ m.map Prod.snd)
    ∧ (∀ l, l ∈ m.map Prod.snd →
        (detsFor m l (classes.zip confidence) = [] →
          alookup l
            (exGetD [] (get_mean_confidence_map classes confidence m)) =
            some 0)
        ∧ (detsFor m l (classes.zip confidence) ≠ [] →
          alookup l
            (exGetD [] (get_mean_confidence_map classes confidence m)) =
            some ((detsFor m l (classes.zip confidence)).sum /
              ((detsFor m l (classes.zip confidence)).length : ℚ)))) := by
  have hfill := fillConf_spec m (classes.zip confidence) (initConfLists m)
    hall
  have heq : get_mean_confidence_map classes confidence m =
      .ok (((initConfLists m).map (fun q =>
          (q.1, q.2 ++ detsFor m q.1 (classes.zip confidence)))).map
        (fun q => (q.1, if 0 < q.2.length then q.2.sum / (q.2.length : ℚ)
          else 0))) := by
    simp only [get_mean_confidence_map, hfill]
  rw [heq]
  simp only [exIsOk, exGetD]
  refine ⟨trivial, ?_, ?_⟩
  · intro l
    rw [keys_mean_map, keys_dets_map, mem_keys_initConfLists]
  · intro l hl
    rw [alookup_mean_map, alookup_dets_map, alookup_initConfLists]
    rw [if_pos hl]
    simp only [Option.map, List.nil_append]
    constructor
    · intro hd
      rw [hd]
      simp
    · intro hd
      have hpos : 0 < (detsFor m l (classes.zip confidence)).length :=
        List.length_pos.mpr hd
      rw [if_pos hpos]

theorem gmcm_c5_witness :
    (alookup (0 : ℤ) [(0, strCat), (1, strDog)]).isSome = true
    ∧ alookup strCat (exGetD []
        (get_mean_confidence_map [0, 0] [2 / 5, 3 / 5]
          [(0, strCat), (1, strDog)])) =
        some ((detsFor [(0, strCat), (1, strDog)] strCat
            (([0, 0] : List ℤ).zip [2 / 5, 3 / 5])).sum /
          ((detsFor [(0, strCat), (1, strDog)] strCat
            (([0, 0] : List ℤ).zip [2 / 5, 3 / 5])).length : ℚ)) :=
  ⟨by simp [alookup],
    ((get_mean_confidence_map_c5 [0, 0] [2 / 5, 3 / 5]
        [(0, strCat), (1, strDog)] (by simp [alookup])).2.2 strCat
      (by simp)).2 (by simp [detsFor, alookup])⟩

theorem fillConf_err (m : List (ℤ × String)) :
    ∀ (ps : List (ℤ × ℚ)) (cm : List (String × List ℚ)),
    (∃ p, p ∈ ps ∧ alookup p.1 m = none) →
    fillConf m ps cm = .error .keyError := by
  intro ps
  induction ps with
  | nil =>
    rintro cm ⟨p, hp, -⟩
    simp at hp
  | cons q ps ih =>
    rintro cm ⟨p, hp, hnone⟩
    rcases List.mem_cons.mp hp with rfl | hmem
    · simp [fillConf, hnone]
    · cases hq : alookup q.1 m with
      | none => simp [fillConf, hq]
      | some l =>
        simp only [fillConf, hq]
        exact ih _ ⟨p, hmem, hnone⟩

/-- Claim C8: when some detection class id is not a key of
`class_id_to_label`, the aggregator fails with the `KeyError` raised by
`class_id_to_label[class_idx]`, which propagates to the caller: no
(partial) confidence map is returned. -/
theorem get_mean_confidence_map_c8 (classes : List ℤ) (confidence : List ℚ)
    (m : List (ℤ × String))
    (h : ∃ p, p ∈ classes.zip confidence ∧ alookup p.1 m = none) :
    get_mean_confidence_map classes confidence m = .error .keyError := by
  have := fillConf_err m (classes.zip confidence) (initConfLists m) h
  simp [get_mean_confidence_map, this]

theorem gmcm_c8_witness :
    get_mean_confidence_map [5] [1 / 2] [(0, strCat)] = .error .keyError :=
  get_mean_confidence_map_c8 [5] [1 / 2] [(0, strCat)]
    ⟨(5, 1 / 2), by simp, by simp [alookup]⟩

/-- Claim C7, counterexample: a per-frame failure that is not a
`TypeError` — here the `AttributeError` a malformed call raises inside the
annotation block — is not caught: it propagates out of
`plot_validation_results` and the following healthy frame is never
processed (the claimed result for the input below would have been
`.ok [(0, 0, 1)]`). -/
theorem pvr_c7_counterexample :
    plot_validation_results
      [[⟨none, .error .attributeError⟩, ⟨none, .ok ()⟩]] =
      .error .attributeError := rfl

/-- Claim C7, amended: inside the per-frame loop only `TypeError` raised
in the annotation/logging `try` block is caught (the frame is skipped and
processing continues, each surviving frame adding exactly one row); any
other exception from that block, and any exception at all from the
prediction stage (which stands outside the `try`), propagates and aborts
the remaining frames of the validation pass. -/
theorem pvr_c7_amended :
    (∀ (frames : List Frame) (bi ii d : ℕ) (acc : List Row3),
      (∀ f ∈ frames, f.predOutcome = none ∧
        (f.tryOutcome = .ok () ∨ f.tryOutcome = .error .typeError)) →
      exIsOk (processBatchFrames bi frames ii d acc) = true
      ∧ rowCount (processBatchFrames bi frames ii d acc) =
          acc.length + frames.countP isOkFrame)
    ∧ (∀ (f : Frame) (rest : List Frame) (bi ii d : ℕ) (acc : List Row3)
        (e : PyExc), f.predOutcome = some e →
        processBatchFrames bi (f :: rest) ii d acc = .error e)
    ∧ (∀ (f : Frame) (rest : List Frame) (bi ii d : ℕ) (acc : List Row3)
        (e : PyExc), f.predOutcome = none → f.tryOutcome = .error e →
        e ≠ .typeError →
        processBatchFrames bi (f :: rest) ii d acc = .error e) := by
  refine ⟨?_, ?_, ?_⟩
  · intro frames
    induction frames with
    | nil =>
      intro bi ii d acc _
      simp [processBatchFrames, exIsOk, rowCount]
    | cons f rest ih =>
      intro bi ii d acc h
      obtain ⟨hpred, htry⟩ := h f (List.mem_cons_self _ _)
      have hrest := fun q hq => h q (List.mem_cons_of_mem _ hq)
      rcases htry with hok | hte
      · have hcalc := ih bi (ii + 1) (d + 1) (acc ++ [(d, bi, ii)]) hrest
        simp only [processBatchFrames, hpred, hok]
        refine ⟨hcalc.1, ?_⟩
        rw [hcalc.2]
        simp [List.countP_cons, isOkFrame, hok]
        omega
      · have hcalc := ih bi (ii + 1) d acc hrest
        simp only [processBatchFrames, hpred, hte]
        rw [if_pos trivial]
        refine ⟨hcalc.1, ?_⟩
        rw [hcalc.2]
        simp [List.countP_cons, isOkFrame, hte]
  · intro f rest bi ii d acc e hpred
    simp [processBatchFrames, hpred]
  · intro f rest bi ii d acc e hpred htry hne
    simp [processBatchFrames, hpred, htry, hne]

theorem pvr_c7_amended_witness :
    exIsOk (processBatchFrames 0
      [⟨none, .error .typeError⟩, ⟨none, .ok ()⟩] 0 0 []) = true
    ∧ rowCount (processBatchFrames 0
        [⟨none, .error .typeError⟩, ⟨none, .ok ()⟩] 0 0 []) =
        ([] : List Row3).length +
          ([⟨none, .error .typeError⟩, ⟨none, .ok ()⟩] : List Frame).countP
            isOkFrame :=
  pvr_c7_amended.1 [⟨none, .error .typeError⟩, ⟨none, .ok ()⟩] 0 0 0 []
    (by
      intro f hf
      rcases List.mem_cons.mp hf with rfl | hf2
      · exact ⟨rfl, Or.inr rfl⟩
      · rcases List.mem_cons.mp hf2 with rfl | hf3
        · exact ⟨rfl, Or.inl rfl⟩
        · simp at hf3)

/-- Claim C10: `plot_validation_results` breaks out of the batch loop
unconditionally after batch index 0 (`if batch_idx + 1 == 1: break`), so
its result on any dataloader equals its result on the first batch alone;
no rows are ever added for images of later batches. -/
theorem pvr_c10 (b : List Frame) (rest : List (List Frame)) :
    plot_validation_results (b :: rest) = plot_validation_results [b] := by
  simp only [plot_validation_results, pvrGo]
  cases processBatchFrames 0 b 0 0 [] <;> simp
